import Mathlib

/-!
Shallow embedding of the task state store of a TypeScript todo-list
application (Redux Toolkit slice `todosSlice.ts`, the store/persistence
module, and the form-submission handler in `App.tsx`), together with
proofs about the spec's claims.

Conventions of the embedding:
* TypeScript strings are Lean `String`; `number` fields that the code only
  ever uses as integers (`order`) are `Int` (`Math.max` over them becomes
  `max` on `Int`, with the same initial value `0` as the `reduce` call).
* `undefined` and `null` optional fields are both `Option.none`; the code
  never distinguishes them observably for the fields modelled here.
* The implicit current time (`new Date().toISOString()`) and the generated
  id (`nanoid()`) are passed as explicit `String` arguments.
* Redux/Immer draft mutation of the task found by `find` becomes a pure
  update of the first list element matching the id (`updateFirst`).
-/

inductive Priority where
  | high
  | medium
  | low
deriving DecidableEq, Repr

/-- A task, mirroring the `TodoItem` interface of `todosSlice.ts`. -/
structure TodoItem where
  id : String
  title : String
  description : Option String
  category : Option String
  priority : Priority
  dueDate : Option String
  completed : Bool
  completedAt : Option String
  createdAt : String
  order : Int
deriving DecidableEq, Repr

/-- The slice state, mirroring `TodosState` of `todosSlice.ts`. -/
structure TodosState where
  items : List TodoItem
  lastUpdated : Option String
deriving DecidableEq, Repr

/-- Payload of the `addTodo` action (`CreateTodoPayload`). -/
structure CreateTodoPayload where
  title : String
  description : Option String
  category : Option String
  priority : Priority
  dueDate : Option String
deriving DecidableEq, Repr

/-- The `changes` part of the `updateTodo` payload (`UpdateTodoPayload`). -/
structure UpdateChanges where
  title : String
  description : Option String
  category : Option String
  priority : Priority
  dueDate : Option String
  completed : Option Bool
deriving DecidableEq, Repr

/-- Model of JavaScript `String.prototype.trim()` on the character sets the
program uses: drop leading and trailing whitespace characters. -/
def jsTrim (s : String) : String :=
  String.mk
    (((s.data.dropWhile Char.isWhitespace).reverse.dropWhile
        Char.isWhitespace).reverse)

/-- Update the first element of the list satisfying `p` by `f`; models
Immer draft mutation of the task returned by `Array.prototype.find`. -/
def updateFirst (p : TodoItem → Bool) (f : TodoItem → TodoItem) :
    List TodoItem → List TodoItem
  | [] => []
  | a :: l => if p a then f a :: l else a :: updateFirst p f l

/-- The `state.items.reduce((max, todo) => Math.max(max, todo.order), 0)`
computation shared by `addTodo`, `updateTodo` and `toggleComplete`. -/
def maxOrder (l : List TodoItem) : Int :=
  l.foldl (fun m t => max m t.order) 0

/-- The task object pushed by `addTodo`: the title is stored verbatim,
`description`/`category` become absent when they trim to empty (but are kept
untrimmed otherwise), `dueDate` becomes absent when falsy. -/
def mkTodo (p : CreateTodoPayload) (nextOrder : Int) (id now : String) :
    TodoItem :=
  { id := id
    title := p.title
    description :=
      match p.description with
      | some d => if jsTrim d = "" then none else some d
      | none => none
    category :=
      match p.category with
      | some c => if jsTrim c = "" then none else some c
      | none => none
    priority := p.priority
    dueDate :=
      match p.dueDate with
      | some d => if d = "" then none else some d
      | none => none
    completed := false
    completedAt := none
    createdAt := now
    order := nextOrder }

/-- The `addTodo` reducer of `todosSlice.ts`. -/
def addTodo (s : TodosState) (p : CreateTodoPayload) (id now : String) :
    TodosState :=
  { items := s.items ++ [mkTodo p (maxOrder s.items + 1) id now]
    lastUpdated := some now }

/-- The field assignments performed by the `updateTodo` reducer on the found
task: title/description/category/priority/dueDate unconditionally, and when
`completed` is provided, `completed`/`completedAt` and (only when the new
value is `false`) `order := maxOrder + 1`. -/
def applyChanges (ch : UpdateChanges) (nextOrder : Int) (now : String)
    (t : TodoItem) : TodoItem :=
  let t1 : TodoItem :=
    { t with
      title := ch.title
      description :=
        match ch.description with
        | some d => if jsTrim d = "" then none else some d
        | none => none
      category :=
        match ch.category with
        | some c => if jsTrim c = "" then none else some c
        | none => none
      priority := ch.priority
      dueDate :=
        match ch.dueDate with
        | some d => if d = "" then none else some d
        | none => none }
  match ch.completed with
  | some b =>
      { t1 with
        completed := b
        completedAt := if b then some now else none
        order := if b then t1.order else nextOrder }
  | none => t1

/-- The `updateTodo` reducer of `todosSlice.ts`: early return (whole state
unchanged, `lastUpdated` untouched) when the id is not found. -/
def updateTodo (s : TodosState) (id : String) (ch : UpdateChanges)
    (now : String) : TodosState :=
  match s.items.find? (fun t => t.id == id) with
  | none => s
  | some _ =>
      { items :=
          updateFirst (fun t => t.id == id)
            (applyChanges ch (maxOrder s.items + 1) now) s.items
        lastUpdated := some now }

/-- The mutation `toggleComplete` performs on the found task. -/
def toggleTask (nextOrder : Int) (now : String) (t : TodoItem) : TodoItem :=
  let c := !t.completed
  { t with
    completed := c
    completedAt := if c then some now else none
    order := if c then t.order else nextOrder }

/-- The `toggleComplete` reducer of `todosSlice.ts`: early return when the
id is not found. -/
def toggleComplete (s : TodosState) (id now : String) : TodosState :=
  match s.items.find? (fun t => t.id == id) with
  | none => s
  | some _ =>
      { items :=
          updateFirst (fun t => t.id == id)
            (toggleTask (maxOrder s.items + 1) now) s.items
        lastUpdated := some now }

/-- The `deleteTodo` reducer: filters the id out and touches `lastUpdated`
unconditionally. -/
def deleteTodo (s : TodosState) (id now : String) : TodosState :=
  { items := s.items.filter (fun t => t.id != id)
    lastUpdated := some now }

/-- One step of the `reorderActive` forEach body: set the first task
matching the id to `order = index + 1`, ignoring missing ids. -/
def reorderStep (acc : List TodoItem) (p : Nat × String) : List TodoItem :=
  updateFirst (fun t => t.id == p.2)
    (fun t => { t with order := (p.1 : Int) + 1 }) acc

/-- The `reorderActive` reducer: for each id in the payload, in order, set
the first matching task's `order` to its index + 1; missing ids are
ignored. -/
def reorderActive (s : TodosState) (ids : List String) (now : String) :
    TodosState :=
  { items := ids.enum.foldl reorderStep s.items
    lastUpdated := some now }

/-- The `starterTodos` seed of `todosSlice.ts`, with the run-time dependent
values (nanoid ids, dates) abstracted as parameters. The third task is
created completed with a non-null `completedAt`. -/
def starterTodos (i1 i2 i3 d1 d2 c1 c2 c3 t3 : String) : List TodoItem :=
  [ { id := i1
      title := "Plan sprint backlog"
      description := some "Review tasks for the week and assign ownership."
      category := some "Work"
      priority := .high
      dueDate := some d1
      completed := false
      completedAt := none
      createdAt := c1
      order := 1 },
    { id := i2
      title := "Grocery run"
      description := some "Ingredients for the weekend dinner party."
      category := some "Personal"
      priority := .medium
      dueDate := some d2
      completed := false
      completedAt := none
      createdAt := c2
      order := 2 },
    { id := i3
      title := "Call mom"
      description := some ""
      category := some "Family"
      priority := .low
      dueDate := none
      completed := true
      completedAt := some t3
      createdAt := c3
      order := 3 } ]

/-- The `initialState` of the slice. -/
def initialState (i1 i2 i3 d1 d2 c1 c2 c3 t3 l0 : String) : TodosState :=
  { items := starterTodos i1 i2 i3 d1 d2 c1 c2 c3 t3
    lastUpdated := some l0 }

/-- A store operation: one dispatched action of the slice, carrying the
ambient values (generated id, current time) it consumes. -/
inductive Op where
  | add (p : CreateTodoPayload) (id now : String)
  | update (id : String) (ch : UpdateChanges) (now : String)
  | toggle (id now : String)
  | delete (id now : String)
  | reorder (ids : List String) (now : String)

/-- Dispatch one operation. -/
def applyOp (s : TodosState) : Op → TodosState
  | .add p id now => addTodo s p id now
  | .update id ch now => updateTodo s id ch now
  | .toggle id now => toggleComplete s id now
  | .delete id now => deleteTodo s id now
  | .reorder ids now => reorderActive s ids now

/-- Dispatch a sequence of operations. -/
def run (s : TodosState) (ops : List Op) : TodosState :=
  ops.foldl applyOp s

/-- The `normalizeCategories` helper of `App.tsx`: split on commas, trim,
drop empties, re-join with ", ". -/
def normalizeCategories (value : String) : String :=
  String.intercalate ", "
    (((value.splitOn ",").map jsTrim).filter (fun s => s != ""))

/-!
Persistence model (`store.ts` in the repository: `loadState` / `saveState`
over a `localStorage` slot). JSON documents are modelled as trees; the
`JSON.parse` library call is modelled by an executable parser over the
integer-numeric subset of JSON that the persisted schema uses (`order` is
the only number and is always an integer; fractional and exponent literals
and `\u` escapes are out of the modelled subset), and `JSON.stringify` by a
printer producing the same compact format.
-/

inductive Json where
  | null
  | bool (b : Bool)
  | num (n : Int)
  | str (s : String)
  | arr (xs : List Json)
  | obj (fields : List (String × Json))
deriving Repr

/-- Drop leading JSON whitespace. -/
def skipWs : List Char → List Char
  | [] => []
  | c :: cs =>
      if c = ' ' ∨ c = '\n' ∨ c = '\t' ∨ c = '\r' then skipWs cs else c :: cs

/-- Consume an expected literal suffix (as in `null`, `true`, `false`). -/
def expectLit : List Char → List Char → Option (List Char)
  | [], cs => some cs
  | _, [] => none
  | e :: es, c :: cs => if c = e then expectLit es cs else none

/-- Parse the body of a JSON string after the opening quote, handling the
single-character escapes. -/
def parseStringBody : List Char → Option (String × List Char)
  | [] => none
  | c :: cs =>
      if c = '"' then some ("", cs)
      else if c = '\\' then
        match cs with
        | [] => none
        | e :: cs2 =>
            if e = 'u' then none
            else
              let ec :=
                if e = 'n' then '\n'
                else if e = 't' then '\t'
                else if e = 'r' then '\r'
                else if e = 'b' then '\x08'
                else if e = 'f' then '\x0C'
                else e
              (parseStringBody cs2).map fun r =>
                (String.singleton ec ++ r.1, r.2)
      else
        (parseStringBody cs).map fun r => (String.singleton c ++ r.1, r.2)

/-- Digits to a natural number. -/
def digitsToNat (ds : List Char) : Nat :=
  ds.foldl (fun a c => a * 10 + (c.toNat - '0'.toNat)) 0

/-- Parse a JSON integer literal (fraction/exponent forms are outside the
modelled subset and rejected). -/
def parseNumber (cs : List Char) : Option (Int × List Char) :=
  let (neg, cs1) :=
    match cs with
    | '-' :: r => (true, r)
    | _ => (false, cs)
  let ds := cs1.takeWhile (fun c => c.isDigit)
  let rest := cs1.dropWhile (fun c => c.isDigit)
  if ds = [] then none
  else
    match rest with
    | '.' :: _ => none
    | 'e' :: _ => none
    | 'E' :: _ => none
    | _ =>
        some (if neg then -(digitsToNat ds : Int) else (digitsToNat ds : Int),
          rest)

mutual

/-- Fueled JSON value parser. -/
def parseJsonF : Nat → List Char → Option (Json × List Char)
  | 0, _ => none
  | fuel + 1, cs =>
      match skipWs cs with
      | [] => none
      | c :: rest =>
          if c = 'n' then (expectLit ['u', 'l', 'l'] rest).map (Json.null, ·)
          else if c = 't' then
            (expectLit ['r', 'u', 'e'] rest).map (Json.bool true, ·)
          else if c = 'f' then
            (expectLit ['a', 'l', 's', 'e'] rest).map (Json.bool false, ·)
          else if c = '"' then
            (parseStringBody rest).map fun r => (Json.str r.1, r.2)
          else if c = '[' then
            match skipWs rest with
            | ']' :: rest2 => some (Json.arr [], rest2)
            | cs2 => (parseElems fuel cs2).map fun r => (Json.arr r.1, r.2)
          else if c = '\x7b' then
            match skipWs rest with
            | '\x7d' :: rest2 => some (Json.obj [], rest2)
            | cs2 => (parseFields fuel cs2).map fun r => (Json.obj r.1, r.2)
          else
            (parseNumber (c :: rest)).map fun r => (Json.num r.1, r.2)

/-- Parse the comma-separated elements of a non-empty JSON array, including
the closing bracket. -/
def parseElems : Nat → List Char → Option (List Json × List Char)
  | 0, _ => none
  | fuel + 1, cs =>
      match parseJsonF fuel cs with
      | none => none
      | some (j, rest) =>
          match skipWs rest with
          | ',' :: rest2 =>
              (parseElems fuel rest2).map fun r => (j :: r.1, r.2)
          | ']' :: rest2 => some ([j], rest2)
          | _ => none

/-- Parse the comma-separated members of a non-empty JSON object, including
the closing brace. -/
def parseFields : Nat → List Char → Option (List (String × Json) × List Char)
  | 0, _ => none
  | fuel + 1, cs =>
      match skipWs cs with
      | '"' :: rest =>
          match parseStringBody rest with
          | none => none
          | some (k, rest1) =>
              match skipWs rest1 with
              | ':' :: rest2 =>
                  match parseJsonF fuel rest2 with
                  | none => none
                  | some (v, rest3) =>
                      match skipWs rest3 with
                      | ',' :: rest4 =>
                          (parseFields fuel rest4).map fun r =>
                            ((k, v) :: r.1, r.2)
                      | '\x7d' :: rest4 => some ([(k, v)], rest4)
                      | _ => none
              | _ => none
      | _ => none

end

/-- Model of `JSON.parse` (on the modelled subset): parse a full document,
requiring only trailing whitespace after the value; `none` models the
exception path. -/
def jsonParse (s : String) : Option Json :=
  match parseJsonF (s.length + 1) s.data with
  | some (j, rest) => if skipWs rest = [] then some j else none
  | none => none

/-- Escape one character for a JSON string literal. -/
def escapeChar (c : Char) : String :=
  if c = '"' then "\\\""
  else if c = '\\' then "\\\\"
  else if c = '\n' then "\\n"
  else if c = '\t' then "\\t"
  else if c = '\r' then "\\r"
  else if c = '\x08' then "\\b"
  else if c = '\x0C' then "\\f"
  else String.singleton c

/-- A JSON string literal. -/
def escapeString (s : String) : String :=
  "\"" ++ String.join (s.data.map escapeChar) ++ "\""

mutual

/-- Model of `JSON.stringify` (compact form, insertion-ordered keys). -/
def jsonStringify : Json → String
  | .null => "null"
  | .bool true => "true"
  | .bool false => "false"
  | .num n => toString n
  | .str s => escapeString s
  | .arr xs => "[" ++ stringifyElems xs ++ "]"
  | .obj fs => "\x7b" ++ stringifyFields fs ++ "\x7d"

/-- Comma-separated array elements. -/
def stringifyElems : List Json → String
  | [] => ""
  | [x] => jsonStringify x
  | x :: xs => jsonStringify x ++ "," ++ stringifyElems xs

/-- Comma-separated object members. -/
def stringifyFields : List (String × Json) → String
  | [] => ""
  | [(k, v)] => escapeString k ++ ":" ++ jsonStringify v
  | (k, v) :: fs =>
      escapeString k ++ ":" ++ jsonStringify v ++ "," ++ stringifyFields fs

end

/-- The `loadState` function of the store module: absent slot or empty
string (falsy `serialized`) gives `undefined`; a `JSON.parse` failure is
caught and gives `undefined`; any successfully parsed document is returned
as-is — the `as PersistedState` cast performs no validation. The
browser-environment guard is outside the model. -/
def loadState (slot : Option String) : Option Json :=
  match slot with
  | none => none
  | some s => if s = "" then none else jsonParse s

/-- JS property access on a parsed object: first field with the key. -/
def getField (fs : List (String × Json)) (k : String) : Option Json :=
  (fs.find? (fun p => p.1 == k)).map (·.2)

/-- The JSON document for one task, as `JSON.stringify` lays it out:
absent optional fields are omitted, `completedAt` is `null` when absent. -/
def todoToJson (t : TodoItem) : Json :=
  .obj
    ([("id", .str t.id), ("title", .str t.title)]
      ++ (match t.description with
          | some d => [("description", Json.str d)]
          | none => [])
      ++ (match t.category with
          | some c => [("category", Json.str c)]
          | none => [])
      ++ [("priority",
            .str
              (match t.priority with
               | .high => "high"
               | .medium => "medium"
               | .low => "low"))]
      ++ (match t.dueDate with
          | some d => [("dueDate", Json.str d)]
          | none => [])
      ++ [("completed", .bool t.completed),
          ("completedAt",
            match t.completedAt with
            | some ca => .str ca
            | none => .null),
          ("createdAt", .str t.createdAt), ("order", .num t.order)])

/-- The JSON document for the whole slice state. -/
def todosStateToJson (s : TodosState) : Json :=
  .obj
    [("items", .arr (s.items.map todoToJson)),
     ("lastUpdated",
       match s.lastUpdated with
       | some l => .str l
       | none => .null)]

/-- The `saveState` function of the store module at document level: the
tree `JSON.stringify` serializes for `\x7b todos: state \x7d`; the
browser guard and the swallowed write failure are outside the model. -/
def saveState (s : TodosState) : Json :=
  .obj [("todos", todosStateToJson s)]

/-- Map a fallible reader over a list, failing if any element fails. -/
def mapOption (f : α → Option β) : List α → Option (List β)
  | [] => some []
  | a :: l =>
      match f a, mapOption f l with
      | some b, some bl => some (b :: bl)
      | _, _ => none

/-- Modelled from the spec: the persisted layout of one task in the slot
schema (section 6 of the spec). The code has no such validator (`loadState`
casts the parsed value); this reader models reading each field of the
parsed task back, failing when the document does not have the expected
shape. -/
def readTodo (j : Json) : Option TodoItem := do
  let fs ←
    match j with
    | .obj fs => some fs
    | _ => none
  let id ←
    match getField fs "id" with
    | some (.str v) => some v
    | _ => none
  let title ←
    match getField fs "title" with
    | some (.str v) => some v
    | _ => none
  let description ←
    match getField fs "description" with
    | some (.str v) => some (some v)
    | none => some none
    | _ => none
  let category ←
    match getField fs "category" with
    | some (.str v) => some (some v)
    | none => some none
    | _ => none
  let priority ←
    match getField fs "priority" with
    | some (.str "high") => some Priority.high
    | some (.str "medium") => some Priority.medium
    | some (.str "low") => some Priority.low
    | _ => none
  let dueDate ←
    match getField fs "dueDate" with
    | some (.str v) => some (some v)
    | none => some none
    | _ => none
  let completed ←
    match getField fs "completed" with
    | some (.bool b) => some b
    | _ => none
  let completedAt ←
    match getField fs "completedAt" with
    | some (.str v) => some (some v)
    | some .null => some none
    | _ => none
  let createdAt ←
    match getField fs "createdAt" with
    | some (.str v) => some v
    | _ => none
  let order ←
    match getField fs "order" with
    | some (.num n) => some n
    | _ => none
  some
    { id := id, title := title, description := description
      category := category, priority := priority, dueDate := dueDate
      completed := completed, completedAt := completedAt
      createdAt := createdAt, order := order }

/-- Modelled from the spec: the persisted layout of the slice state
(`items` plus `lastUpdated`, section 6 of the spec). -/
def readTodosState (j : Json) : Option TodosState :=
  match j with
  | .obj fs =>
      match getField fs "items" with
      | some (.arr xs) =>
          match getField fs "lastUpdated" with
          | some (.str v) =>
              (mapOption readTodo xs).map fun items =>
                { items := items, lastUpdated := some v }
          | some .null =>
              (mapOption readTodo xs).map fun items =>
                { items := items, lastUpdated := none }
          | _ => none
      | _ => none
  | _ => none

/-- Modelled from the spec: the full persisted-state shape
`\x7b todos: ... \x7d` of section 6. -/
def readPersisted (j : Json) : Option TodosState :=
  match j with
  | .obj fs =>
      match getField fs "todos" with
      | some tj => readTodosState tj
      | none => none
  | _ => none

/-- The values held by the task form (`TaskFormValues` in `TaskForm.tsx`). -/
structure TaskFormValues where
  title : String
  description : String
  category : String
  priority : Priority
  dueDate : String
deriving DecidableEq, Repr

/-- The `handleFormSubmit` handler of `App.tsx`: rejects a title that trims
to empty, otherwise dispatches `updateTodo` (when editing) or `addTodo`
with the trimmed title. `dateToIso` abstracts the
`new Date(values.dueDate).toISOString()` conversion. -/
def handleFormSubmit (dateToIso : String → String) (s : TodosState)
    (editing : Option TodoItem) (values : TaskFormValues) (newId now : String) :
    TodosState :=
  let sanitizedTitle := jsTrim values.title
  if sanitizedTitle = "" then s
  else
    let formattedDueDate :=
      if values.dueDate = "" then none else some (dateToIso values.dueDate)
    let normalizedCategories := normalizeCategories values.category
    match editing with
    | some todo =>
        updateTodo s todo.id
          { title := sanitizedTitle
            description := some (jsTrim values.description)
            category := some normalizedCategories
            priority := values.priority
            dueDate := formattedDueDate
            completed := none } now
    | none =>
        addTodo s
          { title := sanitizedTitle
            description := some (jsTrim values.description)
            category := some normalizedCategories
            priority := values.priority
            dueDate := formattedDueDate } newId now

/-!
Helper lemmas about the embedding.
-/

/-- The task pushed by `addTodo` carries the supplied id. -/
theorem mkTodo_id (p : CreateTodoPayload) (n : Int) (id now : String) :
    (mkTodo p n id now).id = id := rfl

/-- `applyChanges` never changes the task's id. -/
theorem applyChanges_id (ch : UpdateChanges) (n : Int) (now : String)
    (t : TodoItem) : (applyChanges ch n now t).id = t.id := by
  cases hc : ch.completed <;> simp [applyChanges, hc]

/-- `toggleTask` never changes the task's id. -/
theorem toggleTask_id (n : Int) (now : String) (t : TodoItem) :
    (toggleTask n now t).id = t.id := rfl

/-- Finding by id after updating the first id-match returns the updated
task, for any id-preserving update. -/
theorem find?_updateFirst (id : String) (f : TodoItem → TodoItem)
    (hf : ∀ t, (f t).id = t.id) (l : List TodoItem) :
    (updateFirst (fun t => t.id == id) f l).find? (fun t => t.id == id)
      = (l.find? (fun t => t.id == id)).map f := by
  induction l with
  | nil => rfl
  | cons a l ih =>
      by_cases h : a.id = id
      · have hb : (a.id == id) = true := by simpa using h
        have hfb : ((f a).id == id) = true := by simp [hf, h]
        simp [updateFirst, hb, List.find?_cons_of_pos, hfb]
      · have hb : (a.id == id) = false := by simpa using h
        simp [updateFirst, hb, List.find?_cons_of_neg, ih]

/-- Updating the first match preserves a pointwise property preserved by
the update function. -/
theorem updateFirst_forall {P : TodoItem → Prop} (p : TodoItem → Bool)
    (f : TodoItem → TodoItem) (hf : ∀ t, P t → P (f t)) :
    ∀ l : List TodoItem, (∀ t ∈ l, P t) → ∀ t ∈ updateFirst p f l, P t := by
  intro l
  induction l with
  | nil => intro _ t ht; cases ht
  | cons a l ih =>
      intro h t ht
      by_cases ha : p a
      · rw [updateFirst, if_pos ha] at ht
        rcases List.mem_cons.mp ht with h1 | h1
        · exact h1 ▸ hf a (h a (List.mem_cons_self a l))
        · exact h t (List.mem_cons_of_mem a h1)
      · rw [updateFirst, if_neg ha] at ht
        rcases List.mem_cons.mp ht with h1 | h1
        · exact h1 ▸ h a (List.mem_cons_self a l)
        · exact ih (fun u hu => h u (List.mem_cons_of_mem a hu)) t h1

/-- Updating the first match by an id-preserving function keeps the list of
ids. -/
theorem map_id_updateFirst (p : TodoItem → Bool) (f : TodoItem → TodoItem)
    (hf : ∀ t, (f t).id = t.id) :
    ∀ l : List TodoItem,
      (updateFirst p f l).map (fun t => t.id) = l.map (fun t => t.id) := by
  intro l
  induction l with
  | nil => rfl
  | cons a l ih =>
      by_cases ha : p a
      · simp [updateFirst, ha, hf]
      · simp [updateFirst, ha, ih]

/-- The fold underlying `maxOrder` only grows its accumulator. -/
theorem le_foldl_max (l : List TodoItem) :
    ∀ a : Int, a ≤ l.foldl (fun m t => max m t.order) a := by
  induction l with
  | nil => intro a; simp
  | cons t l ih =>
      intro a
      exact le_trans (le_max_left a t.order) (ih (max a t.order))

/-- Every member's order is bounded by the fold underlying `maxOrder`. -/
theorem order_le_foldl_max (l : List TodoItem) :
    ∀ (a : Int) (t : TodoItem), t ∈ l →
      t.order ≤ l.foldl (fun m t => max m t.order) a := by
  induction l with
  | nil => intro _ t ht; cases ht
  | cons u l ih =>
      intro a t ht
      rcases List.mem_cons.mp ht with h | h
      · subst h
        exact le_trans (le_max_right a t.order) (le_foldl_max l (max a t.order))
      · exact ih _ t h

/-- Every task's order is at most `maxOrder` of its collection. -/
theorem order_le_maxOrder {t : TodoItem} {l : List TodoItem} (h : t ∈ l) :
    t.order ≤ maxOrder l :=
  order_le_foldl_max l 0 t h

/-- The `reorderActive` fold keeps the list of ids. -/
theorem reorder_foldl_map_id :
    ∀ (ps : List (Nat × String)) (acc : List TodoItem),
      (ps.foldl reorderStep acc).map (fun t => t.id)
        = acc.map (fun t => t.id) := by
  intro ps
  induction ps with
  | nil => intro acc; rfl
  | cons p ps ih =>
      intro acc
      rw [List.foldl_cons, ih]
      exact map_id_updateFirst (fun t => t.id == p.2)
        (fun t => { t with order := (p.1 : Int) + 1 }) (fun _ => rfl) acc

/-- The `reorderActive` fold preserves a pointwise property untouched by
order changes. -/
theorem reorder_foldl_forall {P : TodoItem → Prop}
    (hP : ∀ (n : Int) (t : TodoItem), P t → P { t with order := n }) :
    ∀ (ps : List (Nat × String)) (acc : List TodoItem),
      (∀ t ∈ acc, P t) → ∀ t ∈ ps.foldl reorderStep acc, P t := by
  intro ps
  induction ps with
  | nil => intro acc h; exact h
  | cons p ps ih =>
      intro acc h
      exact ih _ (updateFirst_forall _ _ (fun t ht => hP _ t ht) acc h)

/-!
Invariants over operation sequences.
-/

/-- The spec invariant: `completedAt` is present (non-null) exactly when
`completed` is true. -/
abbrev completedAtInv (s : TodosState) : Prop :=
  ∀ t ∈ s.items, t.completedAt.isSome = t.completed

/-- The spec invariant: task ids are pairwise distinct. -/
abbrev NodupIds (s : TodosState) : Prop :=
  (s.items.map (fun t => t.id)).Nodup

/-- The nanoid contract for one dispatch: an `add` consumes an id not
already present in the state it sees. -/
def freshOp (s : TodosState) : Op → Bool
  | .add _ id _ => s.items.all (fun t => t.id != id)
  | _ => true

/-- The nanoid contract along a run: every id consumed by an `add` is fresh
for the state that dispatch sees. -/
def freshRun (s : TodosState) : List Op → Bool
  | [] => true
  | op :: ops => freshOp s op && freshRun (applyOp s op) ops

/-- `applyChanges` keeps the `completedAt`-iff-`completed` relation. -/
theorem completedAtInv_applyChanges (ch : UpdateChanges) (n : Int)
    (now : String) (t : TodoItem) (h : t.completedAt.isSome = t.completed) :
    (applyChanges ch n now t).completedAt.isSome
      = (applyChanges ch n now t).completed := by
  cases hc : ch.completed with
  | none => simpa [applyChanges, hc] using h
  | some b => cases b <;> simp [applyChanges, hc]

/-- `toggleTask` establishes the `completedAt`-iff-`completed` relation. -/
theorem completedAtInv_toggleTask (n : Int) (now : String) (t : TodoItem) :
    (toggleTask n now t).completedAt.isSome = (toggleTask n now t).completed := by
  cases hb : t.completed <;> simp [toggleTask, hb]

/-- Every operation preserves the `completedAt` invariant. -/
theorem completedAtInv_applyOp {s : TodosState} (op : Op)
    (h : completedAtInv s) : completedAtInv (applyOp s op) := by
  cases op with
  | add p id now =>
      intro t ht
      rcases List.mem_append.mp ht with h1 | h1
      · exact h t h1
      · rw [List.mem_singleton.mp h1]; rfl
  | update id ch now =>
      cases hf : s.items.find? (fun t => t.id == id) with
      | none => simpa [applyOp, updateTodo, hf] using h
      | some t0 =>
          intro t ht
          simp only [applyOp, updateTodo, hf] at ht
          exact updateFirst_forall (fun t => t.id == id) _
            (fun u hu => completedAtInv_applyChanges ch _ now u hu)
            s.items h t ht
  | toggle id now =>
      cases hf : s.items.find? (fun t => t.id == id) with
      | none => simpa [applyOp, toggleComplete, hf] using h
      | some t0 =>
          intro t ht
          simp only [applyOp, toggleComplete, hf] at ht
          exact updateFirst_forall (fun t => t.id == id) _
            (fun u _ => completedAtInv_toggleTask _ now u)
            s.items h t ht
  | delete id now =>
      intro t ht
      exact h t (List.mem_of_mem_filter ht)
  | reorder ids now =>
      intro t ht
      exact reorder_foldl_forall (fun n u hu => hu) ids.enum s.items h t ht

/-- Any run from a state satisfying the `completedAt` invariant satisfies
it again. -/
theorem completedAtInv_run {s : TodosState} (h : completedAtInv s)
    (ops : List Op) : completedAtInv (run s ops) := by
  induction ops generalizing s with
  | nil => exact h
  | cons op ops ih => exact ih (completedAtInv_applyOp op h)

/-- Every operation preserves id uniqueness, given the nanoid freshness
contract for `add`. -/
theorem nodupIds_applyOp {s : TodosState} (op : Op) (h : NodupIds s)
    (hfresh : ∀ p id now, op = Op.add p id now → ∀ t ∈ s.items, t.id ≠ id) :
    NodupIds (applyOp s op) := by
  cases op with
  | add p id now =>
      have hne : ∀ t ∈ s.items, t.id ≠ id := hfresh p id now rfl
      simp only [applyOp, NodupIds, addTodo, List.map_append]
      rw [List.nodup_append]
      refine ⟨h, by simp [mkTodo], ?_⟩
      intro x hx
      rcases List.mem_map.mp hx with ⟨t, ht, rfl⟩
      simp only [List.map_cons, List.map_nil, mkTodo]
      intro hmem
      exact hne t ht (List.mem_singleton.mp hmem)
  | update id ch now =>
      cases hf : s.items.find? (fun t => t.id == id) with
      | none => simpa [applyOp, updateTodo, hf] using h
      | some t0 =>
          simp only [applyOp, NodupIds, updateTodo, hf]
          rw [map_id_updateFirst _ _ (applyChanges_id ch _ now) s.items]
          exact h
  | toggle id now =>
      cases hf : s.items.find? (fun t => t.id == id) with
      | none => simpa [applyOp, toggleComplete, hf] using h
      | some t0 =>
          simp only [applyOp, NodupIds, toggleComplete, hf]
          rw [map_id_updateFirst _ _ (toggleTask_id _ now) s.items]
          exact h
  | delete id now =>
      exact List.Nodup.sublist
        (List.Sublist.map (fun t => t.id) (List.filter_sublist s.items)) h
  | reorder ids now =>
      simp only [applyOp, NodupIds, reorderActive]
      rw [reorder_foldl_map_id]
      exact h

/-- Any run whose `add` ids are fresh preserves id uniqueness. -/
theorem nodupIds_run (ops : List Op) :
    ∀ s : TodosState, NodupIds s → freshRun s ops = true →
      NodupIds (run s ops) := by
  induction ops with
  | nil => intro s h _; exact h
  | cons op ops ih =>
      intro s h hf
      simp only [freshRun, Bool.and_eq_true] at hf
      obtain ⟨h1, h2⟩ := hf
      have hfr : ∀ p idv now, op = Op.add p idv now → ∀ t ∈ s.items, t.id ≠ idv := by
        intro p idv now heq
        subst heq
        simp only [freshOp, List.all_eq_true] at h1
        intro t ht
        simpa using h1 t ht
      exact ih (applyOp s op) (nodupIds_applyOp op h hfr) h2

/-!
Round-trip lemmas for the persistence model.
-/

/-- Reading back the serialized document of one task recovers the task. -/
theorem readTodo_todoToJson (t : TodoItem) : readTodo (todoToJson t) = some t := by
  obtain ⟨idv, title, description, category, priority, dueDate,
    completed, completedAt, createdAt, ord⟩ := t
  cases description <;> cases category <;> cases priority <;>
    cases dueDate <;> cases completedAt <;> rfl

/-- Mapping a reader over serialized elements recovers the list. -/
theorem mapOption_map {α β : Type} {f : α → Option β} {g : β → α}
    (l : List β) (h : ∀ b ∈ l, f (g b) = some b) :
    mapOption f (l.map g) = some l := by
  induction l with
  | nil => rfl
  | cons b l ih =>
      have hb := h b (List.mem_cons_self b l)
      have hl := ih (fun u hu => h u (List.mem_cons_of_mem b hu))
      simp only [List.map_cons, mapOption, hb, hl]

/-- Reading back the serialized slice state recovers it. -/
theorem readTodosState_roundtrip (s : TodosState) :
    readTodosState (todosStateToJson s) = some s := by
  obtain ⟨items, lu⟩ := s
  have hmap : mapOption readTodo (items.map todoToJson) = some items :=
    mapOption_map items (fun b _ => readTodo_todoToJson b)
  cases lu with
  | none =>
      show (mapOption readTodo (items.map todoToJson)).map
          (fun items => TodosState.mk items none) = _
      rw [hmap]
      rfl
  | some l =>
      show (mapOption readTodo (items.map todoToJson)).map
          (fun items => TodosState.mk items (some l)) = _
      rw [hmap]
      rfl

/-!
Concrete example states used by counterexamples and witnesses.
-/

/-- A simple concrete task for examples. -/
def exTodo (idv : String) (comp : Bool) (o : Int) : TodoItem :=
  { id := idv
    title := "Sample"
    description := none
    category := none
    priority := .medium
    dueDate := none
    completed := comp
    completedAt := if comp then some "2026-01-01T00:00:00.000Z" else none
    createdAt := "2026-01-01T00:00:00.000Z"
    order := o }

/-- One active task, `lastUpdated = "t0"`. -/
def c1Ex : TodosState :=
  { items := [exTodo "a" false 1], lastUpdated := some "t0" }

/-!
Claim theorems.
-/

/-- C1 (counterexample): the claim is about the store's `add`/`update`
operations, but the reducers do not validate titles. Calling `addTodo`
with the title `"  "` (empty after trimming) grows the collection by a task
whose stored title is the untrimmed `"  "`, and calling `updateTodo` with a
title that trims to empty overwrites the targeted task's title with it. -/
theorem c1_counterexample :
    (addTodo c1Ex ⟨"  ", none, none, .medium, none⟩ "n1" "t1").items.map
        (fun t => t.title) = ["Sample", "  "]
  ∧ jsTrim "  " = ""
  ∧ (updateTodo c1Ex "a" ⟨" ", none, none, .low, none, none⟩ "t1").items.map
        (fun t => t.title) = [" "] := by decide

/-- C1 (amended): the blank-title rejection and the trimming live in the
form-submission handler (`handleFormSubmit` in `App.tsx`), not in the
reducers. A submission whose title trims to empty dispatches nothing —
the state is unchanged, for both the create and the edit path — and a
create submission with a non-blank title dispatches `addTodo` with the
trimmed title, so the created task's title is the input title with leading
and trailing whitespace removed. -/
theorem c1_amended :
    (∀ (f : String → String) (s : TodosState) (e : Option TodoItem)
        (v : TaskFormValues) (id now : String),
        jsTrim v.title = "" → handleFormSubmit f s e v id now = s)
  ∧ (∀ (f : String → String) (s : TodosState) (v : TaskFormValues)
        (id now : String),
        jsTrim v.title ≠ "" →
          (handleFormSubmit f s none v id now).items.map (fun t => t.title)
            = s.items.map (fun t => t.title) ++ [jsTrim v.title]) := by
  constructor
  · intro f s e v id now h
    simp [handleFormSubmit, h]
  · intro f s v id now h
    simp [handleFormSubmit, h, addTodo, mkTodo]

/-- C1 (witness): the amended statement at concrete inputs: submitting the
blank title `"  "` leaves the state unchanged, and submitting
`" Buy milk "` appends a task titled `"Buy milk"`. -/
theorem c1_amended_witness :
    handleFormSubmit (fun x => x) c1Ex none ⟨"  ", "", "", .medium, ""⟩ "i" "n"
        = c1Ex
  ∧ (handleFormSubmit (fun x => x) c1Ex none
        ⟨" Buy milk ", "", "", .medium, ""⟩ "i" "n").items.map
        (fun t => t.title)
      = c1Ex.items.map (fun t => t.title) ++ [jsTrim " Buy milk "] :=
  ⟨c1_amended.1 (fun x => x) c1Ex none ⟨"  ", "", "", .medium, ""⟩ "i" "n"
      (by decide),
    c1_amended.2 (fun x => x) c1Ex ⟨" Buy milk ", "", "", .medium, ""⟩ "i" "n"
      (by decide)⟩

/-- C2: in every state reachable from the slice's initial state (for any
generated ids and timestamps) by any sequence of add, update,
toggleComplete, delete and reorderActive dispatches, a task's
`completedAt` is present (non-`null`) exactly when its `completed` flag is
true. -/
theorem c2_completedAt_iff_completed
    (i1 i2 i3 d1 d2 c1 c2 c3 t3 l0 : String) (ops : List Op) :
    completedAtInv (run (initialState i1 i2 i3 d1 d2 c1 c2 c3 t3 l0) ops) := by
  apply completedAtInv_run
  intro t ht
  simp [initialState, starterTodos] at ht
  rcases ht with h | h | h <;> subst h <;> rfl

/-- C2 (witness): the invariant at a concrete run. -/
theorem c2_witness :
    completedAtInv
      (run (initialState "i1" "i2" "i3" "d1" "d2" "c1" "c2" "c3" "t3" "l0")
        [Op.toggle "i1" "t4", Op.add ⟨"New", none, none, .low, none⟩ "i4" "t5"]) :=
  c2_completedAt_iff_completed "i1" "i2" "i3" "d1" "d2" "c1" "c2" "c3" "t3" "l0"
    [Op.toggle "i1" "t4", Op.add ⟨"New", none, none, .low, none⟩ "i4" "t5"]

/-- Two active tasks, `lastUpdated = "t0"`. -/
def c3Ex : TodosState :=
  { items := [exTodo "a" false 1], lastUpdated := some "t0" }

/-- C3 (counterexample): deleting an id that matches no task leaves the
collection unchanged, but `touchState` runs unconditionally, so
`lastUpdated` moves from `"t0"` to the current time `"t1"` — it is not
unchanged as the claim states. -/
theorem c3_counterexample :
    (deleteTodo c3Ex "zz" "t1").items = c3Ex.items
  ∧ (deleteTodo c3Ex "zz" "t1").lastUpdated = some "t1"
  ∧ c3Ex.lastUpdated = some "t0"
  ∧ (some "t1" : Option String) ≠ some "t0" := by decide

/-- C3 (amended): for every state and every id that matches no task,
`deleteTodo` leaves the collection unchanged but unconditionally sets
`lastUpdated` to the current time (the spec's design notes flag exactly
this behavior). -/
theorem c3_amended (s : TodosState) (id now : String)
    (h : ∀ t ∈ s.items, t.id ≠ id) :
    deleteTodo s id now = { items := s.items, lastUpdated := some now } := by
  simp only [deleteTodo, TodosState.mk.injEq, and_true]
  apply List.filter_eq_self.mpr
  intro t ht
  simpa using h t ht

/-- C3 (witness): the amended statement at a concrete absent id. -/
theorem c3_witness :
    deleteTodo c3Ex "zz" "t1" = { items := c3Ex.items, lastUpdated := some "t1" } :=
  c3_amended c3Ex "zz" "t1" (by decide)

/-- Two active tasks with orders 1 and 5. -/
def c4Ex : TodosState :=
  { items := [exTodo "a" false 1, exTodo "b" false 5], lastUpdated := some "t0" }

/-- The update payload providing `completed = false`. -/
def c4Changes : UpdateChanges :=
  { title := "Sample", description := none, category := none
    priority := .medium, dueDate := none, completed := some false }

/-- C4 (counterexample): updating the already-active task `"a"` (order 1)
with `completed = false` reassigns its order to `maxOrder + 1 = 6`; the
claim says the order of an already-active task is left unchanged. -/
theorem c4_counterexample :
    ((updateTodo c4Ex "a" c4Changes "t1").items.find?
        (fun t => t.id == "a")).map (fun t => t.order) = some 6
  ∧ (some (6 : Int)) ≠ some (1 : Int) := by decide

/-- C4 (amended): when `update` provides the `completed` field, it
reassigns the task's order to `(max order across all tasks) + 1` whenever
the provided value is `false` — regardless of whether the task was
completed before, so an already-active task updated with
`completed = false` also gets the new order — and leaves the order
unchanged when the provided value is `true` or the field is omitted. -/
theorem c4_amended (s : TodosState) (id : String) (ch : UpdateChanges)
    (now : String) (t0 : TodoItem)
    (hfind : s.items.find? (fun t => t.id == id) = some t0) :
    (ch.completed = some false →
      ((updateTodo s id ch now).items.find? (fun t => t.id == id)).map
        (fun t => t.order) = some (maxOrder s.items + 1))
  ∧ (ch.completed = some true →
      ((updateTodo s id ch now).items.find? (fun t => t.id == id)).map
        (fun t => t.order) = some t0.order)
  ∧ (ch.completed = none →
      ((updateTodo s id ch now).items.find? (fun t => t.id == id)).map
        (fun t => t.order) = some t0.order) := by
  have hre :
      (updateTodo s id ch now).items.find? (fun t => t.id == id)
        = some (applyChanges ch (maxOrder s.items + 1) now t0) := by
    simp only [updateTodo, hfind]
    rw [find?_updateFirst id _ (applyChanges_id ch _ now) s.items, hfind]
    rfl
  refine ⟨?_, ?_, ?_⟩ <;> intro hc <;> rw [hre] <;>
    simp [applyChanges, hc]

/-- C4 (witness): the amended statement at the concrete counterexample
input: the already-active task's order becomes `maxOrder + 1`. -/
theorem c4_witness :
    ((updateTodo c4Ex "a" c4Changes "t1").items.find?
        (fun t => t.id == "a")).map (fun t => t.order)
      = some (maxOrder c4Ex.items + 1) :=
  (c4_amended c4Ex "a" c4Changes "t1" (exTodo "a" false 1) (by decide)).1 rfl

/-- Finding the toggled id after `toggleComplete` returns the toggled
task. -/
theorem toggleComplete_find_eq (s : TodosState) (id now : String)
    (t0 : TodoItem)
    (hfind : s.items.find? (fun t => t.id == id) = some t0) :
    (toggleComplete s id now).items.find? (fun t => t.id == id)
      = some (toggleTask (maxOrder s.items + 1) now t0) := by
  simp only [toggleComplete, hfind]
  rw [find?_updateFirst id _ (toggleTask_id _ now) s.items, hfind]
  rfl

/-- C5: whenever a task transitions from completed to not completed —
via `toggleComplete` on a completed task, or via `updateTodo` providing
`completed = false` — its newly assigned order is strictly greater than
the order every task of the collection had at that moment (in particular
strictly greater than every other task's order, since only the targeted
task's order changes). -/
theorem c5_uncomplete_moves_to_end (s : TodosState) (id now : String)
    (t0 : TodoItem)
    (hfind : s.items.find? (fun t => t.id == id) = some t0)
    (hc : t0.completed = true) :
    (∃ t1, (toggleComplete s id now).items.find? (fun t => t.id == id)
        = some t1 ∧ ∀ u ∈ s.items, u.order < t1.order)
  ∧ (∀ ch : UpdateChanges, ch.completed = some false →
      ∃ t1, (updateTodo s id ch now).items.find? (fun t => t.id == id)
        = some t1 ∧ ∀ u ∈ s.items, u.order < t1.order) := by
  constructor
  · have hre : (toggleComplete s id now).items.find? (fun t => t.id == id)
        = some (toggleTask (maxOrder s.items + 1) now t0) := by
      simp only [toggleComplete, hfind]
      rw [find?_updateFirst id _ (toggleTask_id _ now) s.items, hfind]
      rfl
    refine ⟨toggleTask (maxOrder s.items + 1) now t0, hre, ?_⟩
    intro u hu
    have ho : (toggleTask (maxOrder s.items + 1) now t0).order
        = maxOrder s.items + 1 := by
      simp [toggleTask, hc]
    rw [ho]
    exact lt_of_le_of_lt (order_le_maxOrder hu) (lt_add_one _)
  · intro ch hcc
    have hre : (updateTodo s id ch now).items.find? (fun t => t.id == id)
        = some (applyChanges ch (maxOrder s.items + 1) now t0) := by
      simp only [updateTodo, hfind]
      rw [find?_updateFirst id _ (applyChanges_id ch _ now) s.items, hfind]
      rfl
    refine ⟨applyChanges ch (maxOrder s.items + 1) now t0, hre, ?_⟩
    intro u hu
    have ho : (applyChanges ch (maxOrder s.items + 1) now t0).order
        = maxOrder s.items + 1 := by
      simp [applyChanges, hcc]
    rw [ho]
    exact lt_of_le_of_lt (order_le_maxOrder hu) (lt_add_one _)

/-- A completed task with order 1 next to active tasks with orders 2, 3. -/
def c5Ex : TodosState :=
  { items := [exTodo "a" true 1, exTodo "b" false 2, exTodo "c" false 3]
    lastUpdated := some "t0" }

/-- C5 (witness): un-completing the order-1 task among orders `[1,2,3]`
gives it an order strictly greater than all of them. -/
theorem c5_witness :
    (∃ t1, (toggleComplete c5Ex "a" "t9").items.find? (fun t => t.id == "a")
        = some t1 ∧ ∀ u ∈ c5Ex.items, u.order < t1.order)
  ∧ (∀ ch : UpdateChanges, ch.completed = some false →
      ∃ t1, (updateTodo c5Ex "a" ch "t9").items.find? (fun t => t.id == "a")
        = some t1 ∧ ∀ u ∈ c5Ex.items, u.order < t1.order) :=
  c5_uncomplete_moves_to_end c5Ex "a" "t9" (exTodo "a" true 1)
    (by decide) (by decide)

/-- One completed task (order 3), `completedAt = "2026-01-01..."`. -/
def c6Ex : TodosState :=
  { items := [exTodo "a" true 3], lastUpdated := some "t0" }

/-- C6 (counterexample): for a task that is initially completed, toggling
twice ends with `completedAt` equal to the second toggle's time — not
`null` — so the claim's "completedAt is null again" fails on
initially-completed tasks. -/
theorem c6_counterexample :
    ((toggleComplete (toggleComplete c6Ex "a" "t1") "a" "t2").items.find?
        (fun t => t.id == "a")).map (fun t => t.completedAt)
      = some (some "t2")
  ∧ (some (some "t2") : Option (Option String)) ≠ some none := by decide

/-- C6 (amended): for any initially ACTIVE task (for which, by the C2
invariant, `completedAt` is already `null`), toggling twice returns
`completed` to false and `completedAt` to `null`, and its order is
greater than or equal to the original order (it becomes the end-of-queue
value `maxOrder + 1`). -/
theorem c6_amended (s : TodosState) (id now1 now2 : String) (t0 : TodoItem)
    (hfind : s.items.find? (fun t => t.id == id) = some t0)
    (hc : t0.completed = false) :
    ∃ t2, (toggleComplete (toggleComplete s id now1) id now2).items.find?
        (fun t => t.id == id) = some t2
      ∧ t2.completed = false ∧ t2.completedAt = none ∧ t0.order ≤ t2.order := by
  have hfind1 := toggleComplete_find_eq s id now1 t0 hfind
  have ht1c : (toggleTask (maxOrder s.items + 1) now1 t0).completed = true := by
    simp [toggleTask, hc]
  have ht1o : (toggleTask (maxOrder s.items + 1) now1 t0).order = t0.order := by
    simp [toggleTask, hc]
  have hfind2 := toggleComplete_find_eq (toggleComplete s id now1) id now2
    (toggleTask (maxOrder s.items + 1) now1 t0) hfind1
  refine ⟨_, hfind2, ?_, ?_, ?_⟩
  · simp [toggleTask, hc]
  · simp [toggleTask, hc]
  · have hmem : toggleTask (maxOrder s.items + 1) now1 t0
        ∈ (toggleComplete s id now1).items :=
      List.mem_of_find?_eq_some hfind1
    have hle := order_le_maxOrder hmem
    have ho : (toggleTask (maxOrder (toggleComplete s id now1).items + 1) now2
        (toggleTask (maxOrder s.items + 1) now1 t0)).order
          = maxOrder (toggleComplete s id now1).items + 1 := by
      simp [toggleTask, hc]
    rw [ho, ← ht1o]
    exact le_trans hle (le_of_lt (lt_add_one _))

/-- C6 (witness): the amended statement at a concrete active task. -/
theorem c6_witness :
    ∃ t2, (toggleComplete (toggleComplete c3Ex "a" "t1") "a" "t2").items.find?
        (fun t => t.id == "a") = some t2
      ∧ t2.completed = false ∧ t2.completedAt = none
      ∧ (exTodo "a" false 1).order ≤ t2.order :=
  c6_amended c3Ex "a" "t1" "t2" (exTodo "a" false 1) (by decide) (by decide)

/-- C7 (counterexample): the slot content `"42"` is valid JSON but is not
the expected persisted-state shape (the shape reader rejects it), yet
`loadState` returns it as a parsed value rather than "no prior state" —
the `as PersistedState` cast performs no validation. -/
theorem c7_counterexample :
    loadState (some "42") = some (Json.num 42)
  ∧ readPersisted (Json.num 42) = none
  ∧ (some (Json.num 42) : Option Json) ≠ none :=
  ⟨rfl, rfl, Option.some_ne_none _⟩

/-- C7 (amended): `loadState` returns "no prior state" (and never throws —
it is a total function) exactly for an absent slot, an empty-string slot
value, or content on which JSON parsing fails; content that parses as JSON
but has the wrong shape is returned unvalidated instead of falling back to
defaults. -/
theorem c7_amended :
    loadState none = none
  ∧ loadState (some "") = none
  ∧ (∀ s : String, jsonParse s = none → loadState (some s) = none)
  ∧ loadState (some "\x7b") = none := by
  refine ⟨rfl, rfl, ?_, rfl⟩
  intro s h
  by_cases hs : s = ""
  · simp [loadState, hs]
  · simp [loadState, hs, h]

/-- C7 (witness): the amended statement at the unparseable content
`"xyz"`. -/
theorem c7_witness : loadState (some "xyz") = none :=
  c7_amended.2.2.1 "xyz" rfl

/-- A populated state: one task with all optional fields absent and a null
`completedAt`, one completed task with every field present. -/
def c8Ex : TodosState :=
  { items :=
      [ { id := "a1"
          title := "Buy milk"
          description := none
          category := none
          priority := .high
          dueDate := none
          completed := false
          completedAt := none
          createdAt := "2026-10-10T08:00:00.000Z"
          order := 1 },
        { id := "b2"
          title := "Call mom"
          description := some "weekend"
          category := some "Family, Home"
          priority := .low
          dueDate := some "2026-10-12T00:00:00.000Z"
          completed := true
          completedAt := some "2026-10-11T09:30:00.000Z"
          createdAt := "2026-10-09T12:00:00.000Z"
          order := 2 } ]
    lastUpdated := some "2026-10-11T09:30:00.000Z" }

set_option maxRecDepth 20000 in
/-- C8: serializing any store state with `saveState` and reading the
persisted document back reproduces the identical collection — same ids,
same field values (absent optional fields and null `completedAt`
included), same orders — and the same `lastUpdated`; moreover, for a
concrete populated state, the full string-level pipeline
(stringify, store in the slot, `loadState`) returns exactly the document
that was saved. -/
theorem c8_roundtrip :
    (∀ s : TodosState, readPersisted (saveState s) = some s)
  ∧ loadState (some (jsonStringify (saveState c8Ex))) = some (saveState c8Ex) := by
  constructor
  · intro s
    show readTodosState (todosStateToJson s) = some s
    exact readTodosState_roundtrip s
  · rfl

/-- Two tasks with distinct ids. -/
def c9Ex : TodosState :=
  { items := [exTodo "a" false 1, exTodo "b" true 2], lastUpdated := some "t0" }

/-- A run with two adds (fresh ids), a delete and a toggle. -/
def c9ExOps : List Op :=
  [Op.add ⟨"X", none, none, .high, none⟩ "d" "t1",
   Op.delete "a" "t2",
   Op.add ⟨"Y", none, none, .low, none⟩ "e" "t3",
   Op.toggle "b" "t4"]

/-- C9: starting from any state with pairwise distinct task ids, every
sequence of operations preserves id uniqueness, for any sequence of adds
whose generated ids honor the nanoid contract (each generated id is absent
from the state the dispatch sees). -/
theorem c9_ids_nodup (s : TodosState) (ops : List Op)
    (h0 : NodupIds s) (hf : freshRun s ops = true) :
    NodupIds (run s ops) :=
  nodupIds_run ops s h0 hf

/-- C9 (witness): a concrete run with adds, a delete and a toggle keeps
ids pairwise distinct. -/
theorem c9_witness : NodupIds (run c9Ex c9ExOps) :=
  c9_ids_nodup c9Ex c9ExOps (by decide) (by decide)

/-- One active task, used for the missing-id no-op witness. -/
def c10Ex : TodosState :=
  { items := [exTodo "a" false 1], lastUpdated := some "t0" }

/-- C10: for every state and every id matching no task, `updateTodo` and
`toggleComplete` return the entire state unchanged — `lastUpdated`
included, because the early return precedes `touchState` — whereas
`deleteTodo` sets `lastUpdated` to the current time unconditionally. -/
theorem c10_missing_id_noop (s : TodosState) (id : String)
    (ch : UpdateChanges) (now : String)
    (h : ∀ t ∈ s.items, t.id ≠ id) :
    updateTodo s id ch now = s
  ∧ toggleComplete s id now = s
  ∧ (deleteTodo s id now).lastUpdated = some now := by
  have hnone : s.items.find? (fun t => t.id == id) = none := by
    rw [List.find?_eq_none]
    intro t ht
    simpa using h t ht
  exact ⟨by simp [updateTodo, hnone], by simp [toggleComplete, hnone], rfl⟩

/-- C10 (witness): the statement at a concrete missing id. -/
theorem c10_witness :
    updateTodo c10Ex "zz" c4Changes "t1" = c10Ex
  ∧ toggleComplete c10Ex "zz" "t1" = c10Ex
  ∧ (deleteTodo c10Ex "zz" "t1").lastUpdated = some "t1" :=
  c10_missing_id_noop c10Ex "zz" c4Changes "t1" (by decide)
